import Mathlib

/-!
Shallow embedding of crates/hir-analysis/src/ty/constraint.rs: super-trait
collection with cycle recovery, trait-instance substitution, and the
predicate (assumption / constraint) list algebra.

Opaque handles of the surrounding compiler (hir Trait, TraitRef, ScopeId,
IngotId, source spans) are embedded as natural numbers; interned values
(TyId, TraitInstId, PredicateId, PredicateListId) are embedded as plain
structures, so that structural equality of the embedding models the
"identical contents means identical interned handle" guarantee of the
interning tables.
-/

/-- Handle of a HIR trait declaration (hir_def::Trait). -/
abbrev Trait := Nat

/-- Handle of an unresolved trait reference in a bound (hir_def::TraitRef). -/
abbrev TraitRef := Nat

/-- Source span of a bound, as delivered by the traversal context. -/
abbrev Span := Nat

/-- Name resolution scope handle (scope_graph::ScopeId). -/
abbrev ScopeId := Nat

/-- Compilation unit handle (IngotId). -/
abbrev IngotId := Nat

/-- Modelled from the spec: TyId, the canonical interned type identifier.
The spec treats it as opaque with a substitution capability; generic
parameters (the only part substitution rewrites) appear as the param
constructor, everything else is an opaque primitive or an application. -/
inductive Ty where
  | param (idx : Nat)
  | prim (n : Nat)
  | app (f a : Ty)
deriving DecidableEq

/-- Modelled from the spec: the Subst capability, a table sending each
generic parameter index to a type. -/
abbrev Subst := Nat → Ty

/-- Modelled from the spec: Rewrite(typeIdentifier, substitutionTable),
applied transitively through type applications. -/
def Ty.apply_subst (t : Ty) (subst : Subst) : Ty :=
  match t with
  | .param idx => subst idx
  | .prim n => .prim n
  | .app f a => .app (f.apply_subst subst) (a.apply_subst subst)

/-- All generic parameters occurring in a type are below the given index. -/
def Ty.paramsBelow (n : Nat) : Ty → Bool
  | .param idx => decide (idx < n)
  | .prim _ => true
  | .app f a => f.paramsBelow n && a.paramsBelow n

/-- TraitDef: identity of a declared trait, wrapping its HIR declaration. -/
structure TraitDef where
  trait_ : Trait
deriving DecidableEq

/-- Modelled from the spec: TraitInstId, an interned trait instance — a
trait definition applied to type arguments (the substitution table of the
instance lists the argument for each generic parameter in order). -/
structure TraitInstId where
  def_ : TraitDef
  args : List Ty
deriving DecidableEq

/-- Modelled from the spec: the substitution implied by the type arguments
of the instance: the i-th generic parameter of the definition is sent to
the i-th argument; parameters beyond the argument list are left in place. -/
def TraitInstId.subst_table (self : TraitInstId) : Subst :=
  fun idx => self.args.getD idx (Ty.param idx)

/-- Modelled from the spec: Apply(Trait Instance, substitution) — rewrites
every type argument through the substitution and re-interns. -/
def TraitInstId.apply_subst (self : TraitInstId) (subst : Subst) : TraitInstId :=
  { def_ := self.def_, args := self.args.map (fun t => t.apply_subst subst) }

/-- PredicateId: the interned fact "ty satisfies trait_". -/
structure PredicateId where
  ty : Ty
  trait_ : TraitInstId
deriving DecidableEq

/-- PredicateListId: interned, compilation-unit scoped map from a type to
the set of trait instances it must (or may) satisfy. The BTreeMap and its
BTreeSet values are embedded as an association list of lists; lookup is
the map access, list membership the set membership. -/
structure PredicateListId where
  predicates : List (Ty × List TraitInstId)
  ingot : IngotId
deriving DecidableEq

abbrev AssumptionListId := PredicateListId
abbrev ConstraintListId := PredicateListId

/-- PredicateListId::does_satisfy: looks the type of the predicate up in
the map; absent means false, otherwise tests set membership of the trait
instance of the predicate. -/
def PredicateListId.does_satisfy (self : PredicateListId) (predicate : PredicateId) : Bool :=
  let trait_ := predicate.trait_
  let ty := predicate.ty
  match self.predicates.lookup ty with
  | none => false
  | some insts => insts.contains trait_

/-- PredicateId::apply_subst: rewrites the type and the trait instance,
then re-interns. -/
def PredicateId.apply_subst (self : PredicateId) (subst : Subst) : PredicateId :=
  { ty := self.ty.apply_subst subst, trait_ := self.trait_.apply_subst subst }

/-- C2: does_satisfy on a list built from map M and a predicate (t, tr) is
true exactly when M.get t is defined and the resulting set contains tr
(structural identity match); in particular it is false when t is absent. -/
theorem does_satisfy_iff (m : List (Ty × List TraitInstId)) (ingot : IngotId)
    (p : PredicateId) :
    (PredicateListId.mk m ingot).does_satisfy p = true ↔
      ∃ s, m.lookup p.ty = some s ∧ p.trait_ ∈ s := by
  unfold PredicateListId.does_satisfy
  cases h : m.lookup p.ty with
  | none => simp [h]
  | some insts => simp [h, List.elem_iff]

/-- TraitLowerDiag: diagnostics of trait reference lowering; the collector
itself only ever produces the cyclic-super-traits variant, carrying the
span of the offending bound; the remaining variants are opaque. -/
inductive TraitLowerDiag where
  | cyclicSuperTraits (span : Span)
  | otherLower (n : Nat)
deriving DecidableEq

/-- TyDiagCollection: the diagnostic sum type the collector accumulates;
lowering failures of other kinds are collapsed to an opaque variant. -/
inductive TyDiagCollection where
  | traitLower (d : TraitLowerDiag)
  | otherDiag (n : Nat)
deriving DecidableEq

/-- TypeKind of the bounded type of a where predicate: either the SelfType
of the trait (with its HIR generic argument list, embedded as a list of
opaque handles) or any other shape of type, collapsed to an opaque tag. -/
inductive TypeKind where
  | selfType (args : List Nat)
  | other (tag : Nat)
deriving DecidableEq

/-- A where predicate: the bounded type (absent when the surface syntax was
incomplete) and its bound list. Only trait bounds reach visit_trait_ref, so
the bound list keeps, for each trait bound, the raw trait reference and the
span the traversal context supplies for it. -/
structure WherePredicate where
  ty : Option TypeKind
  bounds : List (TraitRef × Span)
deriving DecidableEq

/-- A nested item in the trait body (method, associated item); it may hold
trait references of its own, which the collector must never visit. -/
structure ItemKind where
  traitRefs : List (TraitRef × Span)
deriving DecidableEq

/-- The HIR data of one trait declaration: the bound list of its header,
the where clause, its nested items, and its name resolution scope. -/
structure HirTrait where
  super_traits : List (TraitRef × Span)
  whereClause : List WherePredicate
  items : List ItemKind
  scope : ScopeId
deriving DecidableEq

/-- Modelled from the spec: the external collaborators of the core — the
HIR data of each trait declaration, and the deterministic trait reference
lowering Lower(traitRef, span, scope) returning an optional trait instance
plus its diagnostics. -/
structure Env where
  hir : Trait → HirTrait
  lower : TraitRef → Span → ScopeId → Option TraitInstId × List TyDiagCollection

/-- The SuperTraitCollector state: the trait being collected, the output
sequence and diagnostics accumulated so far, the known-cyclic trait set,
and the resolution scope of the trait. -/
structure SuperTraitCollector where
  trait_ : TraitDef
  super_traits : List TraitInstId
  diags : List TyDiagCollection
  cycle : List Trait
  scope : ScopeId
deriving DecidableEq

/-- SuperTraitCollector::new. -/
def SuperTraitCollector.new (env : Env) (trait_ : TraitDef) (cycle : List Trait) :
    SuperTraitCollector :=
  { trait_ := trait_
    super_traits := []
    diags := []
    cycle := cycle
    scope := (env.hir trait_.trait_).scope }

/-- Visitor::visit_trait_ref override: lower the reference; on lowering
diagnostics accumulate them and stop; on no instance stop; on an instance
whose definition is in the known-cyclic set emit a cyclic-super-traits
diagnostic at the span of the bound; otherwise append the instance. -/
def SuperTraitCollector.visit_trait_ref (env : Env) (self : SuperTraitCollector)
    (trait_ref : TraitRef) (span : Span) : SuperTraitCollector :=
  let (trait_inst, diags) := env.lower trait_ref span self.scope
  if !diags.isEmpty then
    { self with diags := self.diags ++ diags }
  else
    match trait_inst with
    | none => self
    | some trait_inst =>
      if trait_inst.def_.trait_ ∈ self.cycle then
        { self with diags :=
            self.diags ++ [TyDiagCollection.traitLower (TraitLowerDiag.cyclicSuperTraits span)] }
      else
        { self with super_traits := self.super_traits ++ [trait_inst] }

/-- Visitor::visit_where_predicate override: only when the bounded type is
the SelfType of the trait with an empty generic argument list does the walk
descend into the bounds of the predicate; every other shape is skipped. -/
def SuperTraitCollector.visit_where_predicate (env : Env) (self : SuperTraitCollector)
    (pred : WherePredicate) : SuperTraitCollector :=
  match pred.ty with
  | some (TypeKind.selfType args) =>
    if args.isEmpty then
      pred.bounds.foldl (fun s b => s.visit_trait_ref env b.1 b.2) self
    else
      self
  | _ => self

/-- Visitor::visit_item override: nested items in the trait are not
visited. -/
def SuperTraitCollector.visit_item (self : SuperTraitCollector) (_ : ItemKind) :
    SuperTraitCollector :=
  self

/-- Modelled from the spec: the HIR visitor walk over one trait
declaration — it dispatches the trait references of the header bound list,
then each where predicate, then each nested item through the collector
methods above. -/
def SuperTraitCollector.visit_trait (env : Env) (self : SuperTraitCollector)
    (hir_trait : HirTrait) : SuperTraitCollector :=
  let s1 := hir_trait.super_traits.foldl (fun s b => s.visit_trait_ref env b.1 b.2) self
  let s2 := hir_trait.whereClause.foldl (fun s p => s.visit_where_predicate env p) s1
  hir_trait.items.foldl (fun s i => s.visit_item i) s2

/-- SuperTraitCollector::finalize: run the walk over the HIR of the trait
and return the collected instances and diagnostics. -/
def SuperTraitCollector.finalize (env : Env) (self : SuperTraitCollector) :
    List TraitInstId × List TyDiagCollection :=
  let done := self.visit_trait env (env.hir self.trait_.trait_)
  (done.super_traits, done.diags)

/-- recover_collect_super_traits: rerun the collector with the participant
set of the detected cycle pre-loaded as known-cyclic (the participant keys
of the evaluator are already mapped back to their HIR traits here). -/
def recover_collect_super_traits (env : Env) (participants : List Trait)
    (trait_ : TraitDef) : List TraitInstId × List TyDiagCollection :=
  (SuperTraitCollector.new env trait_ participants).finalize env

/-- Modelled from the spec: the final memoized value of the
collect_super_traits query. P gives, for each trait, the participant set
the evaluator supplied: the empty set when no query cycle was detected
(the normal path — the cycle-forcing loop of the normal body only drives
the evaluator and does not change the returned value), the detected
participant set when the recovery path ran. -/
def collect_super_traits (env : Env) (P : Trait → List Trait) (trait_ : TraitDef) :
    List TraitInstId × List TyDiagCollection :=
  (SuperTraitCollector.new env trait_ (P trait_.trait_)).finalize env

/-- super_trait_insts: take the collected super traits of the definition
of the instance and apply the substitution implied by the type arguments
of the instance to every entry, preserving order. -/
def super_trait_insts (env : Env) (P : Trait → List Trait) (trait_inst : TraitInstId) :
    List TraitInstId :=
  let trait_def := trait_inst.def_
  let supers := (collect_super_traits env P trait_def).1
  supers.map (fun trait_ => trait_.apply_subst trait_inst.subst_table)

/-- compute_super_assumptions: replace the instance set of every entry of
the assumption list by the union of the super-trait instances of its
members, keeping the ingot of the input. (The TraitEnv built by the source
is unused there and is omitted.) -/
def compute_super_assumptions (env : Env) (P : Trait → List Trait)
    (assumptions : AssumptionListId) : AssumptionListId :=
  let ingot := assumptions.ingot
  { predicates :=
      assumptions.predicates.map
        (fun q => (q.1, q.2.flatMap (fun inst => super_trait_insts env P inst)))
    ingot := ingot }

/-- The instance one visited bound contributes to the output sequence:
defined exactly when lowering succeeds without diagnostics and the
definition of the instance is not in the known-cyclic set. -/
def boundInst (env : Env) (cycle : List Trait) (scope : ScopeId)
    (b : TraitRef × Span) : Option TraitInstId :=
  match env.lower b.1 b.2 scope with
  | (some inst, []) => if inst.def_.trait_ ∈ cycle then none else some inst
  | _ => none

/-- The diagnostics one visited bound contributes: the lowering
diagnostics when there are any, one cyclic-super-traits diagnostic at the
span of the bound when the lowered definition is known-cyclic, nothing
otherwise. -/
def boundDiags (env : Env) (cycle : List Trait) (scope : ScopeId)
    (b : TraitRef × Span) : List TyDiagCollection :=
  match env.lower b.1 b.2 scope with
  | (_, d :: ds) => d :: ds
  | (some inst, []) =>
    if inst.def_.trait_ ∈ cycle then
      [TyDiagCollection.traitLower (TraitLowerDiag.cyclicSuperTraits b.2)]
    else
      []
  | (none, []) => []

/-- Whether a where predicate is a super-trait bound: its bounded type is
the SelfType of the trait with no generic arguments. -/
def isSelfBound (p : WherePredicate) : Bool :=
  match p.ty with
  | some (TypeKind.selfType args) => args.isEmpty
  | _ => false

/-- The bounds of a where predicate the walk dispatches to
visit_trait_ref: all of them for a super-trait bound, none otherwise. -/
def selfBounds (p : WherePredicate) : List (TraitRef × Span) :=
  if isSelfBound p then p.bounds else []

/-- All bounds of one trait declaration the collector visits: the header
bound list followed by the bounds of the qualifying where predicates. -/
def qualifyingBounds (env : Env) (t : Trait) : List (TraitRef × Span) :=
  (env.hir t).super_traits ++ (env.hir t).whereClause.flatMap selfBounds

theorem visit_trait_ref_eq (env : Env) (s : SuperTraitCollector) (r : TraitRef)
    (sp : Span) :
    s.visit_trait_ref env r sp =
      { s with
          super_traits := s.super_traits ++ (boundInst env s.cycle s.scope (r, sp)).toList
          diags := s.diags ++ boundDiags env s.cycle s.scope (r, sp) } := by
  unfold SuperTraitCollector.visit_trait_ref boundInst boundDiags
  cases h : env.lower r sp s.scope with
  | mk oi ds =>
    cases ds with
    | nil =>
      cases oi with
      | none => simp
      | some inst =>
        by_cases hc : inst.def_.trait_ ∈ s.cycle <;> simp [hc]
    | cons d ds => simp

theorem foldl_visit_trait_ref (env : Env) (l : List (TraitRef × Span))
    (s : SuperTraitCollector) :
    l.foldl (fun a b => a.visit_trait_ref env b.1 b.2) s =
      { s with
          super_traits := s.super_traits ++ l.filterMap (boundInst env s.cycle s.scope)
          diags := s.diags ++ l.flatMap (boundDiags env s.cycle s.scope) } := by
  induction l generalizing s with
  | nil => simp
  | cons b l ih =>
    rw [List.foldl_cons, visit_trait_ref_eq, ih]
    cases hb : boundInst env s.cycle s.scope b with
    | none => simp [List.filterMap_cons, hb, List.flatMap_cons]
    | some inst => simp [List.filterMap_cons, hb, List.flatMap_cons]

theorem visit_where_predicate_eq (env : Env) (s : SuperTraitCollector)
    (p : WherePredicate) :
    s.visit_where_predicate env p =
      { s with
          super_traits := s.super_traits ++ (selfBounds p).filterMap (boundInst env s.cycle s.scope)
          diags := s.diags ++ (selfBounds p).flatMap (boundDiags env s.cycle s.scope) } := by
  unfold SuperTraitCollector.visit_where_predicate selfBounds isSelfBound
  cases hty : p.ty with
  | none => simp
  | some tk =>
    cases tk with
    | other tag => simp
    | selfType args =>
      by_cases ha : args.isEmpty <;> simp [ha, foldl_visit_trait_ref]

theorem foldl_visit_where_predicate (env : Env) (l : List WherePredicate)
    (s : SuperTraitCollector) :
    l.foldl (fun a p => a.visit_where_predicate env p) s =
      { s with
          super_traits :=
            s.super_traits ++ (l.flatMap selfBounds).filterMap (boundInst env s.cycle s.scope)
          diags := s.diags ++ (l.flatMap selfBounds).flatMap (boundDiags env s.cycle s.scope) } := by
  induction l generalizing s with
  | nil => simp
  | cons p l ih =>
    rw [List.foldl_cons, visit_where_predicate_eq, ih]
    simp [List.flatMap_cons, List.filterMap_append, List.flatMap_append]

theorem foldl_visit_item (l : List ItemKind) (s : SuperTraitCollector) :
    l.foldl (fun a i => a.visit_item i) s = s := by
  induction l with
  | nil => rfl
  | cons i l ih => rw [List.foldl_cons]; exact ih

/-- One closed form for a collector run: the output sequence is the
filterMap of the per-bound instance contributions over the visited bounds,
the diagnostics the flatMap of the per-bound diagnostic contributions. -/
theorem finalize_eq (env : Env) (td : TraitDef) (C : List Trait) :
    (SuperTraitCollector.new env td C).finalize env =
      ((qualifyingBounds env td.trait_).filterMap
          (boundInst env C (env.hir td.trait_).scope),
        (qualifyingBounds env td.trait_).flatMap
          (boundDiags env C (env.hir td.trait_).scope)) := by
  simp only [SuperTraitCollector.finalize, SuperTraitCollector.visit_trait,
    foldl_visit_trait_ref, foldl_visit_where_predicate, foldl_visit_item]
  simp [SuperTraitCollector.new, qualifyingBounds, List.filterMap_append,
    List.flatMap_append]

theorem boundInst_eq_some (env : Env) (C : List Trait) (scope : ScopeId)
    (b : TraitRef × Span) (inst : TraitInstId) :
    boundInst env C scope b = some inst ↔
      (env.lower b.1 b.2 scope = (some inst, []) ∧ inst.def_.trait_ ∉ C) := by
  unfold boundInst
  cases h : env.lower b.1 b.2 scope with
  | mk oi ds =>
    cases ds with
    | nil =>
      cases oi with
      | none => simp
      | some i =>
        by_cases hc : i.def_.trait_ ∈ C
        · simp only [hc, if_true]
          constructor
          · intro hfalse; exact absurd hfalse (by simp)
          · rintro ⟨heq, hnot⟩
            cases heq
            exact absurd hc hnot
        · simp only [hc, if_false]
          constructor


          · intro heq; cases heq; exact ⟨rfl, hc⟩
          · rintro ⟨heq, _⟩; cases heq; rfl
    | cons d ds => simp

/-- The raw super-trait successor relation of the declarations: the
definitions the collector appends when no known-cyclic set is loaded. -/
def rawSuccs (env : Env) (t : Trait) : List Trait :=
  ((SuperTraitCollector.new env (TraitDef.mk t) []).finalize env).1.map
    (fun inst => inst.def_.trait_)

/-- The successor relation of the finalized query results: the definitions
occurring in the sequence collect_super_traits returns for each trait. -/
def finalSuccs (env : Env) (P : Trait → List Trait) (t : Trait) : List Trait :=
  (collect_super_traits env P (TraitDef.mk t)).1.map (fun inst => inst.def_.trait_)

/-- Reachability in at least one step along a successor-list function. -/
inductive ReachVia (f : Trait → List Trait) : Trait → Trait → Prop where
  | single {a b : Trait} : b ∈ f a → ReachVia f a b
  | cons {a b c : Trait} : b ∈ f a → ReachVia f b c → ReachVia f a c

theorem ReachVia.trans {f : Trait → List Trait} {a b c : Trait}
    (h1 : ReachVia f a b) (h2 : ReachVia f b c) : ReachVia f a c := by
  induction h1 with
  | single hm => exact ReachVia.cons hm h2
  | cons hm _ ih => exact ReachVia.cons hm (ih h2)

theorem ReachVia.mono {f g : Trait → List Trait}
    (hfg : ∀ t u, u ∈ g t → u ∈ f t) {a b : Trait}
    (h : ReachVia g a b) : ReachVia f a b := by
  induction h with
  | single hm => exact ReachVia.single (hfg _ _ hm)
  | cons hm _ ih => exact ReachVia.cons (hfg _ _ hm) ih

theorem mem_finalSuccs_iff (env : Env) (P : Trait → List Trait) (t u : Trait) :
    u ∈ finalSuccs env P t ↔
      ∃ b ∈ qualifyingBounds env t, ∃ inst : TraitInstId,
        env.lower b.1 b.2 (env.hir t).scope = (some inst, []) ∧
        inst.def_.trait_ ∉ P t ∧ inst.def_.trait_ = u := by
  unfold finalSuccs collect_super_traits
  rw [finalize_eq]
  simp only [List.mem_map, List.mem_filterMap]
  constructor
  · rintro ⟨inst, ⟨b, hb, hinst⟩, hu⟩
    rw [boundInst_eq_some] at hinst
    exact ⟨b, hb, inst, hinst.1, hinst.2, hu⟩
  · rintro ⟨b, hb, inst, hlow, hnot, hu⟩
    exact ⟨inst, ⟨b, hb, (boundInst_eq_some env _ _ b inst).2 ⟨hlow, hnot⟩⟩, hu⟩

theorem mem_rawSuccs_iff (env : Env) (t u : Trait) :
    u ∈ rawSuccs env t ↔
      ∃ b ∈ qualifyingBounds env t, ∃ inst : TraitInstId,
        env.lower b.1 b.2 (env.hir t).scope = (some inst, []) ∧
        inst.def_.trait_ = u := by
  unfold rawSuccs
  rw [finalize_eq]
  simp only [List.mem_map, List.mem_filterMap]
  constructor
  · rintro ⟨inst, ⟨b, hb, hinst⟩, hu⟩
    rw [boundInst_eq_some] at hinst
    exact ⟨b, hb, inst, hinst.1, hu⟩
  · rintro ⟨b, hb, inst, hlow, hu⟩
    exact ⟨inst, ⟨b, hb, (boundInst_eq_some env _ _ b inst).2
      ⟨hlow, List.not_mem_nil _⟩⟩, hu⟩

theorem finalSuccs_subset (env : Env) (P : Trait → List Trait) (t u : Trait)
    (h : u ∈ finalSuccs env P t) : u ∈ rawSuccs env t := by
  rw [mem_finalSuccs_iff] at h
  rw [mem_rawSuccs_iff]
  obtain ⟨b, hb, inst, hlow, _, hu⟩ := h
  exact ⟨b, hb, inst, hlow, hu⟩

theorem finalSuccs_not_in_participants (env : Env) (P : Trait → List Trait)
    (t u : Trait) (h : u ∈ finalSuccs env P t) : u ∉ P t := by
  rw [mem_finalSuccs_iff] at h
  obtain ⟨b, hb, inst, hlow, hnot, hu⟩ := h
  rw [← hu]
  exact hnot

/-- Modelled from the spec: the contract of the incremental evaluator. For
a trait on a query cycle the recovery path runs with the participant set
of its strongly-connected group (the trait itself together with every
trait mutually reachable with it along the raw super-trait relation); for
a trait on no cycle the normal path runs with the empty set. -/
def evaluatorOk (env : Env) (P : Trait → List Trait) : Prop :=
  ∀ t : Trait,
    (ReachVia (rawSuccs env) t t →
      ∀ u : Trait, u ∈ P t ↔
        (u = t ∨ (ReachVia (rawSuccs env) t u ∧ ReachVia (rawSuccs env) u t))) ∧
    (¬ ReachVia (rawSuccs env) t t → P t = [])

theorem cyclic_diag_emitted (env : Env) (P : Trait → List Trait) (t : Trait)
    (b : TraitRef × Span) (hb : b ∈ qualifyingBounds env t) (inst : TraitInstId)
    (hlow : env.lower b.1 b.2 (env.hir t).scope = (some inst, []))
    (hmem : inst.def_.trait_ ∈ P t) :
    TyDiagCollection.traitLower (TraitLowerDiag.cyclicSuperTraits b.2) ∈
      (collect_super_traits env P (TraitDef.mk t)).2 := by
  unfold collect_super_traits
  rw [finalize_eq]
  rw [List.mem_flatMap]
  refine ⟨b, hb, ?_⟩
  unfold boundDiags
  rw [hlow]
  simp [hmem]

/-- C1: under the evaluator contract, the finalized super-trait sequences
are acyclic — no trait reaches, directly or transitively through the
sequences of the member definitions, an instance of itself — and every
bound of a trait that lowers to a definition that transitively requires
the trait back is reported with a cyclic-super-traits diagnostic at the
span of that bound. -/
theorem collect_super_traits_acyclic (env : Env) (P : Trait → List Trait)
    (hP : evaluatorOk env P) (t : Trait) :
    ¬ ReachVia (finalSuccs env P) t t ∧
    ∀ b ∈ qualifyingBounds env t, ∀ inst : TraitInstId,
      env.lower b.1 b.2 (env.hir t).scope = (some inst, []) →
      ReachVia (rawSuccs env) inst.def_.trait_ t →
      TyDiagCollection.traitLower (TraitLowerDiag.cyclicSuperTraits b.2) ∈
        (collect_super_traits env P (TraitDef.mk t)).2 := by
  constructor
  · intro h
    have hsub : ∀ x y, y ∈ finalSuccs env P x → y ∈ rawSuccs env x :=
      fun x y => finalSuccs_subset env P x y
    cases h with
    | single hm =>
      have hraw : t ∈ rawSuccs env t := hsub t t hm
      have hGtt : ReachVia (rawSuccs env) t t := ReachVia.single hraw
      have hPt : t ∈ P t := ((hP t).1 hGtt t).2 (Or.inl rfl)
      exact absurd hPt (finalSuccs_not_in_participants env P t t hm)
    | cons hm hrest =>
      rename_i u
      have hGtu : ReachVia (rawSuccs env) t u := ReachVia.single (hsub t u hm)
      have hGut : ReachVia (rawSuccs env) u t := ReachVia.mono hsub hrest
      have hGtt : ReachVia (rawSuccs env) t t := hGtu.trans hGut
      have hPu : u ∈ P t := ((hP t).1 hGtt u).2 (Or.inr ⟨hGtu, hGut⟩)
      exact absurd hPu (finalSuccs_not_in_participants env P t u hm)
  · intro b hb inst hlow hreach
    have hraw : inst.def_.trait_ ∈ rawSuccs env t := by
      rw [mem_rawSuccs_iff]
      exact ⟨b, hb, inst, hlow, rfl⟩
    have hGtd : ReachVia (rawSuccs env) t inst.def_.trait_ := ReachVia.single hraw
    have hGtt : ReachVia (rawSuccs env) t t := hGtd.trans hreach
    have hmem : inst.def_.trait_ ∈ P t :=
      ((hP t).1 hGtt inst.def_.trait_).2 (Or.inr ⟨hGtd, hreach⟩)
    exact cyclic_diag_emitted env P t b hb inst hlow hmem

theorem getD_map_of_lt {α β : Type} (l : List α) (f : α → β) (i : Nat)
    (h : i < l.length) (d : β) (d2 : α) :
    (l.map f).getD i d = f (l.getD i d2) := by
  rw [List.getD_eq_getElem?_getD, List.getD_eq_getElem?_getD]
  rw [List.getElem?_map]
  rw [List.getElem?_eq_getElem h]
  simp

theorem apply_subst_table_comp (inst : TraitInstId) (S : Subst) (t : Ty)
    (h : t.paramsBelow inst.args.length = true) :
    t.apply_subst (inst.apply_subst S).subst_table =
      (t.apply_subst inst.subst_table).apply_subst S := by
  induction t with
  | param idx =>
    have hlt : idx < inst.args.length := by
      simpa [Ty.paramsBelow] using h
    show (inst.args.map (fun u => u.apply_subst S)).getD idx (Ty.param idx) =
      (inst.args.getD idx (Ty.param idx)).apply_subst S
    exact getD_map_of_lt inst.args (fun u => u.apply_subst S) idx hlt
      (Ty.param idx) (Ty.param idx)
  | prim n => rfl
  | app f a ihf iha =>
    have hsplit : f.paramsBelow inst.args.length = true ∧
        a.paramsBelow inst.args.length = true := by
      simpa [Ty.paramsBelow, Bool.and_eq_true] using h
    show Ty.app (f.apply_subst _) (a.apply_subst _) =
      Ty.app ((f.apply_subst _).apply_subst S) ((a.apply_subst _).apply_subst S)
    rw [ihf hsplit.1, iha hsplit.2]

theorem trait_inst_apply_subst_comp (inst : TraitInstId) (S : Subst)
    (tr : TraitInstId)
    (h : ∀ t ∈ tr.args, t.paramsBelow inst.args.length = true) :
    tr.apply_subst (inst.apply_subst S).subst_table =
      (tr.apply_subst inst.subst_table).apply_subst S := by
  unfold TraitInstId.apply_subst
  simp only [TraitInstId.mk.injEq, true_and, List.map_map]
  apply List.map_congr_left
  intro t ht
  exact apply_subst_table_comp inst S t (h t ht)

/-- C3: super_trait_insts commutes with substitution — applying a
substitution to a trait instance first and expanding then gives, element
by element and in order, the substituted expansion of the original
instance, provided the type arguments of the instance cover every generic
parameter occurring in the collected super traits of its definition (the
well-formedness the spec makes a precondition of substitution). -/
theorem super_trait_insts_subst_commutes (env : Env) (P : Trait → List Trait)
    (S : Subst) (inst : TraitInstId)
    (h : ∀ tr ∈ (collect_super_traits env P inst.def_).1, ∀ t ∈ tr.args,
      t.paramsBelow inst.args.length = true) :
    super_trait_insts env P (inst.apply_subst S) =
      (super_trait_insts env P inst).map (fun tr => tr.apply_subst S) := by
  unfold super_trait_insts
  have hdef : (inst.apply_subst S).def_ = inst.def_ := rfl
  rw [hdef]
  rw [List.map_map]
  apply List.map_congr_left
  intro tr htr
  exact trait_inst_apply_subst_comp inst S tr (h tr htr)

/-- C5: super_trait_insts is exactly the pointwise application of the
substitution table of the instance to the collected super traits of its
definition: the length is preserved and the i-th output entry is the
substituted i-th collected entry. As a Lean function of the environment
and its argument it is pure by construction. -/
theorem super_trait_insts_spec (env : Env) (P : Trait → List Trait)
    (inst : TraitInstId) :
    (super_trait_insts env P inst).length =
      (collect_super_traits env P inst.def_).1.length ∧
    ∀ i : Nat, (super_trait_insts env P inst)[i]? =
      ((collect_super_traits env P inst.def_).1[i]?).map
        (fun tr => tr.apply_subst inst.subst_table) := by
  constructor
  · simp [super_trait_insts]
  · intro i
    simp [super_trait_insts]

theorem lookup_map_value {β : Type} (g : List TraitInstId → β) (l : List (Ty × List TraitInstId))
    (k : Ty) :
    (l.map (fun q => (q.1, g q.2))).lookup k = (l.lookup k).map g := by
  induction l with
  | nil => rfl
  | cons q l ih =>
    cases hk : k == q.1 with
    | true => simp [List.lookup, hk]
    | false => simp [List.lookup, hk, ih]

/-- C6: compute_super_assumptions keeps the ingot and the key sequence of
the input and replaces the instance set of every entry by the union, over
the instances of the original set, of their super-trait instances (the
sets are embedded as lists, so the union is the concatenation of the
per-instance expansions). -/
theorem compute_super_assumptions_spec (env : Env) (P : Trait → List Trait)
    (a : AssumptionListId) (ty : Ty) (os : List TraitInstId)
    (h : a.predicates.lookup ty = some os) :
    (compute_super_assumptions env P a).ingot = a.ingot ∧
    (compute_super_assumptions env P a).predicates.map Prod.fst =
      a.predicates.map Prod.fst ∧
    (compute_super_assumptions env P a).predicates.lookup ty =
      some (os.flatMap (fun inst => super_trait_insts env P inst)) := by
  refine ⟨rfl, ?_, ?_⟩
  · simp [compute_super_assumptions]
  · show (a.predicates.map
        (fun q => (q.1, q.2.flatMap (fun inst => super_trait_insts env P inst)))).lookup ty =
      some (os.flatMap (fun inst => super_trait_insts env P inst))
    rw [lookup_map_value (fun v => v.flatMap (fun inst => super_trait_insts env P inst))
      a.predicates ty]
    rw [h]
    rfl

/-- C4: when lowering a visited bound succeeds with no diagnostics, the
collector checks the definition of the instance against the known-cyclic
set: a member yields exactly one cyclic-super-traits diagnostic carrying
the span of the bound and the instance is not appended; a non-member is
appended and no cycle diagnostic is emitted. (The collector run itself is
a plain fold over the visited bounds and performs no recursion.) -/
theorem visit_trait_ref_cycle_check (env : Env) (s : SuperTraitCollector)
    (r : TraitRef) (sp : Span) (inst : TraitInstId)
    (h : env.lower r sp s.scope = (some inst, [])) :
    s.visit_trait_ref env r sp =
      if inst.def_.trait_ ∈ s.cycle then
        { s with diags :=
            s.diags ++ [TyDiagCollection.traitLower (TraitLowerDiag.cyclicSuperTraits sp)] }
      else
        { s with super_traits := s.super_traits ++ [inst] } := by
  rw [visit_trait_ref_eq]
  unfold boundInst boundDiags
  rw [h]
  by_cases hc : inst.def_.trait_ ∈ s.cycle <;> simp [hc]

/-- C7: when lowering a visited bound reports a non-empty diagnostic
sequence, the collector appends exactly those diagnostics, appends no
super-trait instance, and emits no cyclic-super-traits diagnostic of its
own — even when the partially lowered instance has a definition in the
known-cyclic set. -/
theorem visit_trait_ref_lowering_diags (env : Env) (s : SuperTraitCollector)
    (r : TraitRef) (sp : Span)
    (h : (env.lower r sp s.scope).2 ≠ []) :
    s.visit_trait_ref env r sp =
      { s with diags := s.diags ++ (env.lower r sp s.scope).2 } := by
  rw [visit_trait_ref_eq]
  unfold boundInst boundDiags
  cases hl : env.lower r sp s.scope with
  | mk oi ds =>
    rw [hl] at h
    cases ds with
    | nil => exact absurd rfl h
    | cons d ds => simp

/-- C10: a visited bound whose lowering returns no diagnostics and no
trait instance is skipped silently — the collector state is unchanged, so
the bound is indistinguishable in the output from one never present. -/
theorem visit_trait_ref_silent_skip (env : Env) (s : SuperTraitCollector)
    (r : TraitRef) (sp : Span)
    (h : env.lower r sp s.scope = (none, [])) :
    s.visit_trait_ref env r sp = s := by
  rw [visit_trait_ref_eq]
  unfold boundInst boundDiags
  rw [h]
  simp

theorem flatMap_selfBounds_eq (l : List WherePredicate) :
    l.flatMap selfBounds = (l.filter isSelfBound).flatMap (fun p => p.bounds) := by
  induction l with
  | nil => rfl
  | cons p l ih =>
    rw [List.flatMap_cons, List.filter_cons]
    cases hp : isSelfBound p with
    | true => rw [if_pos (by simp [hp]), List.flatMap_cons, ih, selfBounds, hp, if_pos rfl]
    | false =>
      rw [if_neg (by simp [hp]), ih, selfBounds, hp]
      simp

/-- C8: the collector output is a function of the header bound list, the
where predicates whose bounded type is the SelfType of the trait with no
extra type arguments, and the scope alone: two declarations agreeing on
those — however much they differ in other where predicates or in nested
items (methods, associated items) and the trait references inside them —
produce identical results, so non-qualifying bounds and nested items
contribute neither super traits nor diagnostics. -/
theorem collector_ignores_other_bounds_and_items (env : Env) (C : List Trait)
    (t1 t2 : TraitDef)
    (hs : (env.hir t1.trait_).super_traits = (env.hir t2.trait_).super_traits)
    (hw : (env.hir t1.trait_).whereClause.filter isSelfBound =
      (env.hir t2.trait_).whereClause.filter isSelfBound)
    (hsc : (env.hir t1.trait_).scope = (env.hir t2.trait_).scope) :
    (SuperTraitCollector.new env t1 C).finalize env =
      (SuperTraitCollector.new env t2 C).finalize env := by
  rw [finalize_eq, finalize_eq]
  have hq : qualifyingBounds env t1.trait_ = qualifyingBounds env t2.trait_ := by
    unfold qualifyingBounds
    rw [hs, flatMap_selfBounds_eq, flatMap_selfBounds_eq, hw]
  rw [hq, hsc]

/-- C9: the collector never discards a failure: every diagnostic that
lowering reports for any visited bound of the trait is present in the
diagnostic sequence the finalized query returns, alongside the (possibly
incomplete) super-trait sequence; the embedding is a total function, so a
result pair is returned on every input. -/
theorem collector_accumulates_lowering_diags (env : Env) (P : Trait → List Trait)
    (t : Trait) (b : TraitRef × Span) (hb : b ∈ qualifyingBounds env t)
    (d : TyDiagCollection)
    (hd : d ∈ (env.lower b.1 b.2 (env.hir t).scope).2) :
    d ∈ (collect_super_traits env P (TraitDef.mk t)).2 := by
  unfold collect_super_traits
  rw [finalize_eq]
  rw [List.mem_flatMap]
  refine ⟨b, hb, ?_⟩
  unfold boundDiags
  cases hl : env.lower b.1 b.2 (env.hir t).scope with
  | mk oi ds =>
    rw [hl] at hd
    cases ds with
    | nil => exact absurd hd (List.not_mem_nil d)
    | cons x xs => simpa using hd

/-- A trait declaration with no bounds, no where clause and no items. -/
def emptyHirTrait : HirTrait :=
  { super_traits := [], whereClause := [], items := [], scope := 0 }

/-- An environment with no trait declarations and a lowering that always
fails silently. -/
def env0 : Env :=
  { hir := fun _ => emptyHirTrait
    lower := fun _ _ _ => (none, []) }

/-- The participant assignment of an evaluator that detected no cycle. -/
def pEmpty : Trait → List Trait := fun _ => []

theorem rawSuccs_env0 (t : Trait) : rawSuccs env0 t = [] := rfl

theorem no_reach_env0 {a b : Trait} (h : ReachVia (rawSuccs env0) a b) : False := by
  induction h with
  | single hm => rw [rawSuccs_env0] at hm; exact List.not_mem_nil _ hm
  | cons hm _ _ => rw [rawSuccs_env0] at hm; exact List.not_mem_nil _ hm

theorem contract0 : evaluatorOk env0 pEmpty := by
  intro t
  constructor
  · intro h; exact (no_reach_env0 h).elim
  · intro _; rfl

theorem collect_super_traits_acyclic_witness :
    ¬ ReachVia (finalSuccs env0 pEmpty) 0 0 :=
  (collect_super_traits_acyclic env0 pEmpty contract0 0).1

/-- An environment exercising the three outcomes of lowering a bound:
reference 0 lowers to an instance of trait 1, reference 1 lowers with
diagnostics to an instance of trait 2, reference 2 lowers silently to
nothing, and every other reference fails with a diagnostic. -/
def envW : Env :=
  { hir := fun _ => emptyHirTrait
    lower := fun r _ _ =>
      match r with
      | 0 => (some { def_ := { trait_ := 1 }, args := [] }, [])
      | 1 => (some { def_ := { trait_ := 2 }, args := [] }, [TyDiagCollection.otherDiag 0])
      | 2 => (none, [])
      | _ => (none, [TyDiagCollection.otherDiag 9]) }

def s4 : SuperTraitCollector :=
  { trait_ := { trait_ := 0 }, super_traits := [], diags := [], cycle := [1], scope := 0 }

theorem visit_trait_ref_cycle_check_witness :
    SuperTraitCollector.visit_trait_ref envW s4 0 5 =
      if (TraitInstId.mk (TraitDef.mk 1) []).def_.trait_ ∈ s4.cycle then
        { s4 with diags :=
            s4.diags ++ [TyDiagCollection.traitLower (TraitLowerDiag.cyclicSuperTraits 5)] }
      else
        { s4 with super_traits := s4.super_traits ++ [TraitInstId.mk (TraitDef.mk 1) []] } :=
  visit_trait_ref_cycle_check envW s4 0 5 (TraitInstId.mk (TraitDef.mk 1) []) rfl

def s7 : SuperTraitCollector :=
  { trait_ := { trait_ := 0 }, super_traits := [], diags := [], cycle := [2], scope := 0 }

theorem visit_trait_ref_lowering_diags_witness :
    SuperTraitCollector.visit_trait_ref envW s7 1 3 =
      { s7 with diags := s7.diags ++ (envW.lower 1 3 s7.scope).2 } :=
  visit_trait_ref_lowering_diags envW s7 1 3 (by decide)

def s10 : SuperTraitCollector :=
  { trait_ := { trait_ := 0 }, super_traits := [], diags := [], cycle := [], scope := 0 }

theorem visit_trait_ref_silent_skip_witness :
    SuperTraitCollector.visit_trait_ref envW s10 2 4 = s10 :=
  visit_trait_ref_silent_skip envW s10 2 4 rfl

/-- An environment where trait 0 declares one super-trait bound, lowering
to an instance of trait 1 with one type argument that uses generic
parameter 0 of trait 0. -/
def env3 : Env :=
  { hir := fun t =>
      if t = 0 then
        { super_traits := []
          whereClause := [{ ty := some (TypeKind.selfType []), bounds := [(0, 1)] }]
          items := []
          scope := 0 }
      else emptyHirTrait
    lower := fun r _ _ =>
      if r = 0 then
        (some { def_ := { trait_ := 1 }, args := [Ty.app (Ty.prim 0) (Ty.param 0)] }, [])
      else (none, []) }

/-- Trait 0 instantiated at the primitive type 5. -/
def inst3 : TraitInstId := { def_ := { trait_ := 0 }, args := [Ty.prim 5] }

def subst3 : Subst := fun idx => Ty.prim (idx + 10)

theorem super_trait_insts_subst_commutes_witness :
    super_trait_insts env3 pEmpty (inst3.apply_subst subst3) =
      (super_trait_insts env3 pEmpty inst3).map (fun tr => tr.apply_subst subst3) :=
  super_trait_insts_subst_commutes env3 pEmpty subst3 inst3 (by decide)

def a6 : AssumptionListId := { predicates := [(Ty.prim 0, [inst3])], ingot := 7 }

theorem compute_super_assumptions_spec_witness :
    (compute_super_assumptions env3 pEmpty a6).ingot = a6.ingot ∧
    (compute_super_assumptions env3 pEmpty a6).predicates.map Prod.fst =
      a6.predicates.map Prod.fst ∧
    (compute_super_assumptions env3 pEmpty a6).predicates.lookup (Ty.prim 0) =
      some ([inst3].flatMap (fun inst => super_trait_insts env3 pEmpty inst)) :=
  compute_super_assumptions_spec env3 pEmpty a6 (Ty.prim 0) [inst3] rfl

/-- Two declarations of the same super-trait bounds: trait 0 additionally
carries a non-SelfType where predicate and a nested item, both holding
trait references that would lower successfully; trait 1 carries neither. -/
def env8 : Env :=
  { hir := fun t =>
      if t = 0 then
        { super_traits := [(0, 1)]
          whereClause :=
            [{ ty := some (TypeKind.other 3), bounds := [(0, 7)] },
              { ty := some (TypeKind.selfType []), bounds := [(0, 2)] }]
          items := [{ traitRefs := [(0, 9)] }]
          scope := 0 }
      else if t = 1 then
        { super_traits := [(0, 1)]
          whereClause := [{ ty := some (TypeKind.selfType []), bounds := [(0, 2)] }]
          items := []
          scope := 0 }
      else emptyHirTrait
    lower := fun r _ _ =>
      if r = 0 then (some { def_ := { trait_ := 2 }, args := [] }, []) else (none, []) }

theorem collector_ignores_other_bounds_and_items_witness :
    (SuperTraitCollector.new env8 (TraitDef.mk 0) []).finalize env8 =
      (SuperTraitCollector.new env8 (TraitDef.mk 1) []).finalize env8 :=
  collector_ignores_other_bounds_and_items env8 [] (TraitDef.mk 0) (TraitDef.mk 1)
    rfl (by decide) rfl

/-- An environment where the single bound of trait 0 fails to lower and
reports one diagnostic. -/
def env9 : Env :=
  { hir := fun t =>
      if t = 0 then
        { super_traits := [(3, 4)], whereClause := [], items := [], scope := 0 }
      else emptyHirTrait
    lower := fun r _ _ =>
      if r = 3 then (none, [TyDiagCollection.otherDiag 7]) else (none, []) }

theorem collector_accumulates_lowering_diags_witness :
    TyDiagCollection.otherDiag 7 ∈ (collect_super_traits env9 pEmpty (TraitDef.mk 0)).2 :=
  collector_accumulates_lowering_diags env9 pEmpty 0 (3, 4) (by decide)
    (TyDiagCollection.otherDiag 7) (by decide)
